import Mathlib

/-!
# Verification of the UV correspondence / transfer core

Shallow embedding of the UV-shell copy/paste tool
(`UV_Copy_Paste_Tool.py`), the whole-mesh UV transfer tool
(`UV_Transfer_Tool.py`) and the UV nearest-point snap tool
(`Maya_UV_Snap.py`) from the Maya2022 scripts.

Modelling conventions:
* machine floats become rationals;
* host (Maya) queries -- coordinate reads, UV-to-vertex lookups, shell
  expansion, coordinate writes -- become explicit function parameters;
* the Python dicts built by `get_uv_to_vertex_mapping` contain an entry
  for every UV id (the `except` branches bake in the self-anchoring
  fallback), so the anchor map is a total function;
* Python `sorted(xs, key=f)` is a stable sort ascending by the key,
  which is exactly `List.insertionSort` with the key-based relation;
* the Euclidean-distance comparisons of the snap tool
  (`math.sqrt(d2) < m` and `math.sqrt(d2) <= threshold`) are embedded
  square-free: the square root is strictly monotone on nonnegative
  arguments, so minimising and thresholding squared distances is
  exactly equivalent (the threshold test keeps the explicit
  `0 <= threshold` conjunct that makes the equivalence hold for every
  rational threshold).
-/

namespace UVTools

/-! ## Vertex-anchored ordering

This embeds `sorted(uv_ids, key=lambda x: uv_to_vertex.get(x, x))` from
`UV_Copy_Paste_Tool.get_uv_shell_data` (line 155) and
`UV_Transfer_Tool.get_mesh_uv_data` (line 125) /
`UV_Transfer_Tool.paste_uv_to_mesh` (lines 269-272). -/

/-- Sort relation used by the Python key-based sort: compare UV ids by
their anchored vertex id only. -/
def anchorLe (anchor : ℕ → ℕ) (a b : ℕ) : Prop :=
  anchor a ≤ anchor b

instance (anchor : ℕ → ℕ) : DecidableRel (anchorLe anchor) :=
  fun a b => inferInstanceAs (Decidable (anchor a ≤ anchor b))

instance (anchor : ℕ → ℕ) : IsTotal ℕ (anchorLe anchor) :=
  ⟨fun a b => Nat.le_total (anchor a) (anchor b)⟩

instance (anchor : ℕ → ℕ) : IsTrans ℕ (anchorLe anchor) :=
  ⟨fun _ _ _ hab hbc => Nat.le_trans hab hbc⟩

/-- Stable sort of the UV ids ascending by anchored vertex id, the
Lean counterpart of the Python key-based `sorted` call. -/
def orderByAnchor (anchor : ℕ → ℕ) (uvIds : List ℕ) : List ℕ :=
  List.insertionSort (anchorLe anchor) uvIds

/-- Lexicographic strict order "first by anchored vertex id, then by
the UV id itself"; the order the spec asserts for tie-breaking. -/
def lexLt (anchor : ℕ → ℕ) (a b : ℕ) : Prop :=
  anchor a < anchor b ∨ (anchor a = anchor b ∧ a < b)

/-! ## Shell snapshots (`UV_Copy_Paste_Tool`)

`get_uv_shell_data` (lines 112-166) snapshots one shell: the list of
UV ids in host enumeration order, their coordinates, and the
UV-to-vertex anchor map.  `copy_uv_shell` (lines 187-206) derives the
centroid and the per-id offsets from it. -/

/-- Data captured for one UV shell by `get_uv_shell_data`: `ids` is
`uv_ids` (host enumeration order), `coords` is `uv_data` (coordinate
reads are total host queries), `anchor` is `uv_to_vertex`. -/
structure ShellData where
  ids : List ℕ
  coords : ℕ → ℚ × ℚ
  anchor : ℕ → ℕ

/-- The canonical order `sorted_ids` of a shell (line 155). -/
def ShellData.sortedIds (d : ShellData) : List ℕ :=
  orderByAnchor d.anchor d.ids

/-- The shell's `uv_count` field (line 160). -/
def ShellData.uvCount (d : ShellData) : ℕ :=
  d.ids.length

/-- Centroid of the shell, the arithmetic mean of the coordinates:
`center_u = sum_u / count`, `center_v = sum_v / count`
(`copy_uv_shell` lines 190-196, and the same computation for the
target in `paste_uv_shell` lines 288-295). -/
def ShellData.center (d : ShellData) : ℚ × ℚ :=
  ((d.ids.map fun i => (d.coords i).1).sum / d.ids.length,
   (d.ids.map fun i => (d.coords i).2).sum / d.ids.length)

/-- The `relative_coords` entry of a source id: its coordinate minus
the source centroid (`copy_uv_shell` lines 200-206). -/
def ShellData.relCoords (d : ShellData) (i : ℕ) : ℚ × ℚ :=
  ((d.coords i).1 - d.center.1, (d.coords i).2 - d.center.2)

/-- Per-shell write loop of `paste_uv_shell` (lines 288-327): compute
the target's own centroid from its current coordinates, then walk the
two vertex-anchored orderings positionally (`enumerate` with a `break`
at the source length, i.e. `zip`) and emit one absolute coordinate
write per pair whose source id has a recorded relative coordinate
(`if source_uv_id in relative_coords`).  Each write sets the paired
target id to `target_center + relative_coords[source_id]`. -/
def pasteShellWrites (src tgt : ShellData) : List (ℕ × ℚ × ℚ) :=
  let tc := tgt.center
  (tgt.sortedIds.zip src.sortedIds).filterMap fun p =>
    if p.2 ∈ src.ids then
      some (p.1, (tc.1 + (src.relCoords p.2).1, tc.2 + (src.relCoords p.2).2))
    else none

/-! ## Topology compatibility checks -/

/-- Whole-mesh topology counts (`polyEvaluate` vertex / face / uvcoord,
`UV_Transfer_Tool.get_mesh_uv_data` lines 94-96). -/
structure MeshCounts where
  vertexCount : ℕ
  faceCount : ℕ
  uvCount : ℕ
deriving DecidableEq

/-- A reported topology mismatch: which metric differed, with the
target's and the source's value (the order used by the failure
messages of `paste_uv_to_mesh`, e.g. line 244). -/
inductive Mismatch where
  | vertexCount (target source : ℕ)
  | faceCount (target source : ℕ)
  | uvCount (target source : ℕ)
deriving DecidableEq

/-- Mesh-mode topology gate of `paste_uv_to_mesh` (lines 243-265):
compare vertex count, then face count, then UV count, reporting the
first mismatch and nothing past it; `none` means compatible. -/
def meshCompatible (target source : MeshCounts) : Option Mismatch :=
  if target.vertexCount ≠ source.vertexCount then
    some (.vertexCount target.vertexCount source.vertexCount)
  else if target.faceCount ≠ source.faceCount then
    some (.faceCount target.faceCount source.faceCount)
  else if target.uvCount ≠ source.uvCount then
    some (.uvCount target.uvCount source.uvCount)
  else
    none

/-- Shell-mode topology gate of `paste_uv_shell` (line 274):
`if match_topology and target_data[uv_count] != self.uv_data[uv_count]`. -/
def shellCompatible (matchTopology : Bool) (targetCount sourceCount : ℕ) :
    Option Mismatch :=
  if matchTopology ∧ targetCount ≠ sourceCount then
    some (.uvCount targetCount sourceCount)
  else
    none

/-! ## Batch orchestration (`paste_uv_shell`, lines 262-340) -/

/-- One entry of the `failed_list` of `paste_uv_shell`: either the
target's data could not be obtained (line 269) or its UV count
mismatched (lines 274-281).  Every entry carries the 1-based batch
index the messages are formatted with. -/
inductive ShellFailReason where
  | noData (idx : ℕ)
  | uvCountMismatch (idx targetCount sourceCount : ℕ)
deriving DecidableEq

/-- Result aggregate of one `paste_uv_shell` run: `success_count`, the
ordered `failed_list`, and the coordinate writes of each successful
target in order. -/
structure ShellBatchReport where
  succeeded : ℕ
  failed : List ShellFailReason
  applied : List (List (ℕ × ℚ × ℚ))
deriving DecidableEq

/-- Batch loop body of `paste_uv_shell` (lines 262-330): each target is
either unreadable (`target_data` is `None`), or rejected by the UV
count gate, or transferred; in every case the loop proceeds to the
next target.  `idx` is the 1-based counter of `enumerate(uv_shells, 1)`. -/
def pasteShellLoop (src : ShellData) (matchTopology : Bool) :
    ℕ → List (Option ShellData) → ShellBatchReport
  | _, [] => ⟨0, [], []⟩
  | idx, none :: rest =>
    let r := pasteShellLoop src matchTopology (idx + 1) rest
    ⟨r.succeeded, .noData idx :: r.failed, r.applied⟩
  | idx, some d :: rest =>
    let r := pasteShellLoop src matchTopology (idx + 1) rest
    if matchTopology ∧ d.uvCount ≠ src.uvCount then
      ⟨r.succeeded, .uvCountMismatch idx d.uvCount src.uvCount :: r.failed,
       r.applied⟩
    else
      ⟨r.succeeded + 1, r.failed, pasteShellWrites src d :: r.applied⟩

/-- Whole `paste_uv_shell` batch over the selected target shells, with
`match_topology=True` (the default and only caller-used mode). -/
def pasteShellBatch (src : ShellData) (targets : List (Option ShellData)) :
    ShellBatchReport :=
  pasteShellLoop src true 1 targets

/-! ## Whole-mesh snapshots and transfer (`UV_Transfer_Tool`) -/

/-- Snapshot built by `get_mesh_uv_data` (lines 84-135): topology
counts, the `uv_data` coordinate table over `range(uv_count)` (a read
that raises is recorded as `(0.0, 0.0)`, lines 111-119), and the
`uv_to_vertex` anchor map. -/
structure MeshSnap where
  counts : MeshCounts
  uvData : ℕ → ℚ × ℚ
  anchor : ℕ → ℕ

/-- Construction of a `MeshSnap` from the host coordinate-read query:
`uv_data[uv_id] = polyEditUV(query)` on success and `(0.0, 0.0)` when
the read raises (the `except` branch, line 119). -/
def buildMeshSnap (counts : MeshCounts) (read : ℕ → Except Unit (ℚ × ℚ))
    (anchor : ℕ → ℕ) : MeshSnap :=
  { counts := counts
    uvData := fun i =>
      match read i with
      | .ok c => c
      | .error _ => (0, 0)
    anchor := anchor }

/-- The snapshot's `sorted_uv_ids` (line 125): the keys of `uv_data`,
i.e. `range(uv_count)`, sorted by anchored vertex id. -/
def MeshSnap.sortedIds (s : MeshSnap) : List ℕ :=
  orderByAnchor s.anchor (List.range s.counts.uvCount)

/-- Outcome of the per-mesh write loop: `apply_count`, `error_count`
and the attempted writes in order. -/
structure TransferRes where
  applyCount : ℕ
  errorCount : ℕ
  writes : List (ℕ × ℚ × ℚ)
deriving DecidableEq

/-- Write loop of `paste_uv_to_mesh` (lines 278-300) over the
positional pairs `(target_uv_id, source_uv_id)`: if the source id is a
key of `uv_data` (which holds exactly for `source_uv_id < uv_count`),
attempt the coordinate write; a successful write bumps `apply_count`,
a host write failure is caught and bumps `error_count`, and either way
the loop continues with the remaining pairs. -/
def transferLoop (uvData : ℕ → ℚ × ℚ) (uvCount : ℕ)
    (writeOk : ℕ → ℚ × ℚ → Bool) : List (ℕ × ℕ) → TransferRes
  | [] => ⟨0, 0, []⟩
  | (tid, sid) :: rest =>
    if sid < uvCount then
      let c := uvData sid
      let r := transferLoop uvData uvCount writeOk rest
      if writeOk tid c then
        ⟨r.applyCount + 1, r.errorCount, (tid, c) :: r.writes⟩
      else
        ⟨r.applyCount, r.errorCount + 1, (tid, c) :: r.writes⟩
    else
      transferLoop uvData uvCount writeOk rest

/-- Whole-mesh coordinate transfer onto a compatibility-checked target:
pair the target's vertex-anchored order with the source's
(`enumerate` + `break` at the source length, i.e. `zip`) and run the
write loop; `writeOk` is the host's write primitive outcome. -/
def meshTransfer (src : MeshSnap) (tgtAnchor : ℕ → ℕ) (tgtUvCount : ℕ)
    (writeOk : ℕ → ℚ × ℚ → Bool) : TransferRes :=
  transferLoop src.uvData src.counts.uvCount writeOk
    ((orderByAnchor tgtAnchor (List.range tgtUvCount)).zip src.sortedIds)

/-! ## Nearest-point snap (`Maya_UV_Snap.snap_uv_to_nearest`)

The selection / undo-history parsing of lines 14-43 is host and UI
glue; the embedding starts where the tool has the flattened selection
and the inferred target UV point (line 44). -/

/-- Host environment of the snap tool: the shell-expansion primitive
(`polySelectBorderShell` seeded at one point) and the coordinate read. -/
structure SnapEnv where
  shell : ℕ → List ℕ
  coords : ℕ → ℚ × ℚ

/-- Squared Euclidean distance in UV space. -/
def distSq (p q : ℚ × ℚ) : ℚ :=
  (p.1 - q.1) ^ 2 + (p.2 - q.2) ^ 2

/-- Minimum search of lines 100-108: fold over the target points in
enumeration order, keeping the pair `(nearest_point, min_dist)`; the
strict `<` update keeps the first-encountered minimum. -/
def nearestAux (c : ℚ × ℚ) :
    Option ((ℚ × ℚ) × ℚ) → List (ℚ × ℚ) → Option ((ℚ × ℚ) × ℚ)
  | acc, [] => acc
  | acc, t :: rest =>
    match acc with
    | none => nearestAux c (some (t, distSq c t)) rest
    | some (bp, m) =>
      if distSq c t < m then nearestAux c (some (t, distSq c t)) rest
      else nearestAux c (some (bp, m)) rest

/-- Nearest target point of a source coordinate, with its (squared)
distance; `none` only for an empty target list. -/
def nearestPoint (targets : List (ℚ × ℚ)) (c : ℚ × ℚ) :
    Option ((ℚ × ℚ) × ℚ) :=
  nearestAux c none targets

/-- Threshold test of line 111, square-free: `sqrt d2 <= threshold`
holds for `d2 >= 0` iff `0 <= threshold` and `d2 <= threshold^2`. -/
def snapWithin (threshold d2 : ℚ) : Bool :=
  decide (0 ≤ threshold) && decide (d2 ≤ threshold * threshold)

/-- Result of one snap invocation: whether the call was rejected before
the write loop, and the coordinate writes performed. -/
structure SnapResult where
  rejected : Bool
  writes : List (ℕ × ℚ × ℚ)
deriving DecidableEq

/-- Per-point body of the write loop (lines 94-116): a source point
lying in the target shell is skipped (`continue`, lines 96-97);
otherwise its nearest target point is computed and the write happens
exactly when the minimum distance is within the threshold. -/
def snapPoint (targetUvs : List ℕ) (targetPoints : List (ℚ × ℚ))
    (coords : ℕ → ℚ × ℚ) (threshold : ℚ) (uv : ℕ) : Option (ℕ × ℚ × ℚ) :=
  if uv ∈ targetUvs then none
  else
    match nearestPoint targetPoints (coords uv) with
    | none => none
    | some (np, d2) =>
      if snapWithin threshold d2 then some (uv, np) else none

/-- Core of `snap_uv_to_nearest` (lines 44-116): drop the target point
from the selection to get the source points (line 44, rejecting when
none remain, lines 46-48); expand the target point to its shell
(lines 67-69, rejecting an empty expansion, lines 58-60); expand the
FIRST source point to its shell and reject the whole call when that
shell intersects the target shell (lines 71-81); otherwise run the
per-point snap over the source points (lines 94-116). -/
def snapRun (env : SnapEnv) (selectedUvs : List ℕ) (targetUv : ℕ)
    (threshold : ℚ) : SnapResult :=
  let sourceUvs := selectedUvs.filter fun uv => uv ≠ targetUv
  match sourceUvs with
  | [] => ⟨true, []⟩
  | first :: _ =>
    let targetUvs := env.shell targetUv
    if targetUvs = [] then ⟨true, []⟩
    else if targetUvs.any fun uv => uv ∈ env.shell first then ⟨true, []⟩
    else
      ⟨false,
       sourceUvs.filterMap
         (snapPoint targetUvs (targetUvs.map env.coords) env.coords threshold)⟩

/-! ## Shell extraction (`get_selected_uv_shells`, lines 22-74) -/

/-- Visit loop of `get_selected_uv_shells` (lines 44-68): walk the
selected UV components in order; skip a component already marked
processed; otherwise expand it to its whole shell, record the shell's
first UV as the representative and mark every UV of the shell
processed. -/
def extractLoop (shell : ℕ → List ℕ) : List ℕ → List ℕ → List ℕ
  | [], _ => []
  | uv :: rest, processed =>
    if uv ∈ processed then extractLoop shell rest processed
    else
      match shell uv with
      | [] => extractLoop shell rest processed
      | first :: tail =>
        first :: extractLoop shell rest (processed ++ first :: tail)

/-- Whole `get_selected_uv_shells`: `None` for an empty selection
(lines 30-31), for a selection with no UV-typed components
(lines 34-37), or when no shell was produced (line 74); otherwise the
list of one representative per connected shell, in first-encounter
order. -/
def getSelectedUvShells (shell : ℕ → List ℕ) (isUV : ℕ → Bool)
    (selected : List ℕ) : Option (List ℕ) :=
  if selected.isEmpty then none
  else
    let uvComponents := selected.filter isUV
    if uvComponents.isEmpty then none
    else
      let shells := extractLoop shell uvComponents []
      if shells.isEmpty then none else some shells

/-- A processed set closed under shell expansion; the visit loop only
ever extends `processed` by whole shells, so this is its invariant. -/
def ShellClosed (shell : ℕ → List ℕ) (p : List ℕ) : Prop :=
  ∀ x ∈ p, ∀ y ∈ shell x, y ∈ p

/-- Reference sequence following the spec's words for the ordering of
the extraction's output: walk the selected UV points in input order
and emit each point's connected region the first time that region is
encountered, skipping regions already seen.  The extraction's output,
mapped to regions, is proved equal to this sequence. -/
def firstEncounterShells (shell : ℕ → List ℕ) :
    List ℕ → List (List ℕ) → List (List ℕ)
  | [], _ => []
  | u :: rest, seen =>
    if shell u ∈ seen then firstEncounterShells shell rest seen
    else shell u :: firstEncounterShells shell rest (shell u :: seen)

/-! ## Concrete instances used by counterexamples and witnesses -/

/-- Shell function with one two-point region, the points 0 and 2, and
singleton regions elsewhere; selecting [0, 1, 2] encounters the region
of 0 first, then the region of 1, and finds 2 already visited. -/
def exShellFn : ℕ → List ℕ :=
  fun x => if x = 0 ∨ x = 2 then [0, 2] else [x]

/-- Anchor map sending every UV id to vertex 0: every pair of ids is a
tie (the situation of a UV seam). -/
def tieAnchor : ℕ → ℕ := fun _ => 0

/-- Source shell with four UV points for the batch example. -/
def exSrc4 : ShellData :=
  ⟨[0, 1, 2, 3], fun i => ((i : ℚ), 0), fun i => i⟩

/-- Compatible target shell with four UV points. -/
def exTgtA : ShellData :=
  ⟨[0, 1, 2, 3], fun i => ((i : ℚ), 1), fun i => i⟩

/-- Incompatible target shell with three UV points. -/
def exTgt3 : ShellData :=
  ⟨[0, 1, 2], fun i => ((i : ℚ), 2), fun i => i⟩

/-- Second compatible target shell with four UV points. -/
def exTgtB : ShellData :=
  ⟨[4, 5, 6, 7], fun i => ((i : ℚ), 3), fun i => i⟩

/-- Snap environment for the shared-point counterexample: UV points 10
and 1 form one shell (the target shell), every other point is a
singleton shell; all coordinates coincide so the snap condition holds. -/
def cexSnapEnv : SnapEnv :=
  ⟨fun x => if x = 10 ∨ x = 1 then [10, 1] else [x], fun _ => (0, 0)⟩

/-- Snap environment realising the spec's threshold example: source
point 0 sits at (0, 0); the target shell is the points 1 and 2 at
(0.005, 0) and (0.5, 0.5). -/
def exSnapEnv : SnapEnv :=
  ⟨fun x => if x = 1 ∨ x = 2 then [1, 2] else [x],
   fun x => if x = 1 then (1 / 200, 0) else if x = 2 then (1 / 2, 1 / 2) else (0, 0)⟩

/-- Snap environment where every shell is the single point 7, so the
first source point's shell intersects the target shell. -/
def rejSnapEnv : SnapEnv :=
  ⟨fun _ => [7], fun _ => (0, 0)⟩

/-- Coordinate-read query that raises exactly at UV id 1 and yields
(5, 5) elsewhere. -/
def errRead : ℕ → Except Unit (ℚ × ℚ) :=
  fun i => if i = 1 then .error () else .ok (5, 5)

end UVTools

namespace UVTools

/-! ## Helper lemmas -/

theorem orderByAnchor_perm (anchor : ℕ → ℕ) (l : List ℕ) :
    (orderByAnchor anchor l).Perm l :=
  List.perm_insertionSort _ l

theorem orderByAnchor_length (anchor : ℕ → ℕ) (l : List ℕ) :
    (orderByAnchor anchor l).length = l.length :=
  (orderByAnchor_perm anchor l).length_eq

theorem orderByAnchor_sorted (anchor : ℕ → ℕ) (l : List ℕ) :
    List.Sorted (anchorLe anchor) (orderByAnchor anchor l) :=
  List.sorted_insertionSort _ l

theorem orderByAnchor_idem (anchor : ℕ → ℕ) (l : List ℕ) :
    orderByAnchor anchor (orderByAnchor anchor l) = orderByAnchor anchor l :=
  List.Sorted.insertionSort_eq (orderByAnchor_sorted anchor l)

theorem mem_orderByAnchor {anchor : ℕ → ℕ} {l : List ℕ} {a : ℕ} :
    a ∈ orderByAnchor anchor l ↔ a ∈ l :=
  (orderByAnchor_perm anchor l).mem_iff

end UVTools

namespace UVTools

theorem filterMap_ite_all {α β : Type} (f : α → β) (P : α → Prop)
    [DecidablePred P] (l : List α) (h : ∀ a ∈ l, P a) :
    (l.filterMap fun a => if P a then some (f a) else none) = l.map f := by
  induction l with
  | nil => rfl
  | cons x t ih =>
    have hx : P x := h x (List.mem_cons_self x t)
    simp only [List.filterMap_cons, List.map_cons, if_pos hx]
    rw [ih fun a ha => h a (List.mem_cons_of_mem x ha)]

theorem getD_map_of_lt {α β : Type} (f : α → β) (d' : α) (d : β) :
    ∀ (l : List α) (i : ℕ), i < l.length → (l.map f).getD i d = f (l.getD i d')
  | _ :: _, 0, _ => rfl
  | x :: t, i + 1, h =>
    getD_map_of_lt f d' d t i (Nat.lt_of_succ_lt_succ h)

theorem getD_zip_of_lt {α β : Type} (d1 : α) (d2 : β) :
    ∀ (l1 : List α) (l2 : List β) (i : ℕ), i < l1.length → i < l2.length →
      (l1.zip l2).getD i (d1, d2) = (l1.getD i d1, l2.getD i d2)
  | _ :: _, _ :: _, 0, _, _ => rfl
  | x :: t1, y :: t2, i + 1, h1, h2 =>
    getD_zip_of_lt d1 d2 t1 t2 i (Nat.lt_of_succ_lt_succ h1)
      (Nat.lt_of_succ_lt_succ h2)

theorem pasteShellWrites_eq_map (src tgt : ShellData) :
    pasteShellWrites src tgt =
      (tgt.sortedIds.zip src.sortedIds).map fun p =>
        (p.1, (tgt.center.1 + (src.relCoords p.2).1,
               tgt.center.2 + (src.relCoords p.2).2)) := by
  have h : ∀ p ∈ tgt.sortedIds.zip src.sortedIds, p.2 ∈ src.ids := by
    intro p hp
    obtain ⟨p1, p2⟩ := p
    exact mem_orderByAnchor.mp (List.of_mem_zip hp).2
  unfold pasteShellWrites
  exact filterMap_ite_all _ _ _ h

theorem pasteShellWrites_length (src tgt : ShellData) :
    (pasteShellWrites src tgt).length =
      min tgt.sortedIds.length src.sortedIds.length := by
  rw [pasteShellWrites_eq_map, List.length_map, List.length_zip]

/-- C1: centroid-relative shell paste.  For every source shell snapshot
and every target shell of equal UV count, the engine computes the
target's own centroid as the arithmetic mean of the target points'
current coordinates, and the i-th emitted write overwrites the i-th
target point in canonical (vertex-anchored) order with that centroid
plus the i-th canonical source point's offset from the source
centroid. -/
theorem paste_shell_centroid_relative (src tgt : ShellData)
    (hlen : src.ids.length = tgt.ids.length) :
    tgt.center =
      ((tgt.ids.map fun i => (tgt.coords i).1).sum / tgt.ids.length,
       (tgt.ids.map fun i => (tgt.coords i).2).sum / tgt.ids.length) ∧
    (pasteShellWrites src tgt).length = tgt.ids.length ∧
    ∀ i, i < tgt.ids.length →
      (pasteShellWrites src tgt).getD i (0, (0, 0)) =
        (tgt.sortedIds.getD i 0,
         (tgt.center.1 + ((src.coords (src.sortedIds.getD i 0)).1 - src.center.1),
          tgt.center.2 + ((src.coords (src.sortedIds.getD i 0)).2 - src.center.2))) := by
  have hts : tgt.sortedIds.length = tgt.ids.length :=
    orderByAnchor_length tgt.anchor tgt.ids
  have hss : src.sortedIds.length = src.ids.length :=
    orderByAnchor_length src.anchor src.ids
  refine ⟨rfl, ?_, ?_⟩
  · rw [pasteShellWrites_length, hts, hss, hlen, min_self]
  · intro i hi
    have h1 : i < tgt.sortedIds.length := by rw [hts]; exact hi
    have h2 : i < src.sortedIds.length := by rw [hss, hlen]; exact hi
    rw [pasteShellWrites_eq_map,
      getD_map_of_lt _ (0, 0) _ _ i (by rw [List.length_zip]; omega),
      getD_zip_of_lt 0 0 _ _ i h1 h2]
    rfl

/-- Witness for C1 at a concrete compatible source/target pair. -/
theorem paste_shell_centroid_relative_witness :
    (pasteShellWrites exSrc4 exTgtA).length = exTgtA.ids.length :=
  (paste_shell_centroid_relative exSrc4 exTgtA rfl).2.1

/-- C2: for every anchor map and every enumeration of a UV point set,
the vertex-anchored ordering returns a permutation of the input (same
multiset of ids, none added or dropped), and applying the ordering to
its own output yields the same sequence. -/
theorem order_perm_idem (anchor : ℕ → ℕ) (l : List ℕ) :
    (orderByAnchor anchor l).Perm l ∧
      orderByAnchor anchor (orderByAnchor anchor l) = orderByAnchor anchor l :=
  ⟨orderByAnchor_perm anchor l, orderByAnchor_idem anchor l⟩

end UVTools

namespace UVTools

/-- C3: for every Counts value the strict topology check succeeds on
itself, and for differing counts it fails reporting exactly one
mismatch -- the first differing metric examined in the order
vertex count, face count, UV count for mesh mode (UV count only for
shell mode) -- together with both operand values.  The `Option
Mismatch` return carries at most one report, so mismatches are never
aggregated. -/
theorem topology_compat_first_mismatch :
    (∀ c : MeshCounts, meshCompatible c c = none) ∧
    (∀ (b : Bool) (n : ℕ), shellCompatible b n n = none) ∧
    (∀ c1 c2 : MeshCounts, meshCompatible c1 c2 = none ↔ c1 = c2) ∧
    (∀ c1 c2 : MeshCounts, c1.vertexCount ≠ c2.vertexCount →
      meshCompatible c1 c2 = some (.vertexCount c1.vertexCount c2.vertexCount)) ∧
    (∀ c1 c2 : MeshCounts, c1.vertexCount = c2.vertexCount →
      c1.faceCount ≠ c2.faceCount →
      meshCompatible c1 c2 = some (.faceCount c1.faceCount c2.faceCount)) ∧
    (∀ c1 c2 : MeshCounts, c1.vertexCount = c2.vertexCount →
      c1.faceCount = c2.faceCount → c1.uvCount ≠ c2.uvCount →
      meshCompatible c1 c2 = some (.uvCount c1.uvCount c2.uvCount)) ∧
    (∀ n m : ℕ, n ≠ m → shellCompatible true n m = some (.uvCount n m)) ∧
    (∀ n m : ℕ, shellCompatible true n m = none ↔ n = m) := by
  refine ⟨?_, ?_, ?_, ?_, ?_, ?_, ?_, ?_⟩
  · intro c; simp [meshCompatible]
  · intro b n; simp [shellCompatible]
  · intro c1 c2
    constructor
    · intro h
      by_cases hv : c1.vertexCount = c2.vertexCount
      · by_cases hf : c1.faceCount = c2.faceCount
        · by_cases hu : c1.uvCount = c2.uvCount
          · cases c1; cases c2; simp_all
          · simp [meshCompatible, hv, hf, hu] at h
        · simp [meshCompatible, hv, hf] at h
      · simp [meshCompatible, hv] at h
    · rintro rfl; simp [meshCompatible]
  · intro c1 c2 hv; simp [meshCompatible, hv]
  · intro c1 c2 hv hf; simp [meshCompatible, hv, hf]
  · intro c1 c2 hv hf hu; simp [meshCompatible, hv, hf, hu]
  · intro n m h; simp [shellCompatible, h]
  · intro n m
    by_cases h : n = m
    · simp [shellCompatible, h]
    · simp [shellCompatible, h]

/-- Witness for C3: a concrete self-check success, a vertex-count
mismatch caught first, and a shell UV-count mismatch. -/
theorem topology_compat_first_mismatch_witness :
    meshCompatible ⟨8, 6, 14⟩ ⟨8, 6, 14⟩ = none ∧
    meshCompatible ⟨1, 2, 3⟩ ⟨4, 2, 3⟩ = some (.vertexCount 1 4) ∧
    shellCompatible true 3 4 = some (.uvCount 3 4) :=
  ⟨topology_compat_first_mismatch.1 ⟨8, 6, 14⟩,
   topology_compat_first_mismatch.2.2.2.1 ⟨1, 2, 3⟩ ⟨4, 2, 3⟩ (by decide),
   topology_compat_first_mismatch.2.2.2.2.2.2.1 3 4 (by decide)⟩

theorem pasteShellLoop_total (src : ShellData) (mt : Bool) :
    ∀ (targets : List (Option ShellData)) (idx : ℕ),
      (pasteShellLoop src mt idx targets).succeeded +
        (pasteShellLoop src mt idx targets).failed.length = targets.length := by
  intro targets
  induction targets with
  | nil => intro idx; rfl
  | cons t rest ih =>
    intro idx
    cases t with
    | none =>
      have := ih (idx + 1)
      simp only [pasteShellLoop, List.length_cons] at *
      omega
    | some d =>
      by_cases h : mt ∧ d.uvCount ≠ src.uvCount
      · have := ih (idx + 1)
        simp only [pasteShellLoop, if_pos h, List.length_cons] at *
        omega
      · have := ih (idx + 1)
        simp only [pasteShellLoop, if_neg h, List.length_cons] at *
        omega

theorem pasteShellLoop_succ_append (src : ShellData) (mt : Bool) :
    ∀ (ts1 ts2 : List (Option ShellData)) (idx : ℕ),
      (pasteShellLoop src mt idx (ts1 ++ ts2)).succeeded =
        (pasteShellLoop src mt idx ts1).succeeded +
          (pasteShellLoop src mt (idx + ts1.length) ts2).succeeded := by
  intro ts1
  induction ts1 with
  | nil => intro ts2 idx; simp [pasteShellLoop]
  | cons t rest ih =>
    intro ts2 idx
    have e1 : idx + (t :: rest).length = idx + 1 + rest.length := by
      simp only [List.length_cons]; omega
    rw [e1]
    cases t with
    | none =>
      simp only [pasteShellLoop, List.cons_append, List.append_eq]
      rw [ih ts2 (idx + 1)]
    | some d =>
      by_cases h : mt ∧ d.uvCount ≠ src.uvCount
      · simp only [pasteShellLoop, List.cons_append, List.append_eq, if_pos h]
        rw [ih ts2 (idx + 1)]
      · simp only [pasteShellLoop, List.cons_append, List.append_eq, if_neg h]
        rw [ih ts2 (idx + 1)]
        omega

/-- C4: batch orchestration.  The report's succeeded count plus the
failure-list length always equals the number of targets; the succeeded
count is additive over a split of the batch, so a failing target in one
part never prevents the other part's targets from being attempted; and
on the concrete batch of three targets where only target number 2 has a
mismatched UV count, the report has two successes and exactly one
failure entry naming index 2 with both UV counts. -/
theorem batch_orchestration :
    (∀ (src : ShellData) (targets : List (Option ShellData)),
        (pasteShellBatch src targets).succeeded +
          (pasteShellBatch src targets).failed.length = targets.length) ∧
    (∀ (src : ShellData) (mt : Bool) (ts1 ts2 : List (Option ShellData)) (idx : ℕ),
        (pasteShellLoop src mt idx (ts1 ++ ts2)).succeeded =
          (pasteShellLoop src mt idx ts1).succeeded +
            (pasteShellLoop src mt (idx + ts1.length) ts2).succeeded) ∧
    (pasteShellBatch exSrc4 [some exTgtA, some exTgt3, some exTgtB]).succeeded = 2 ∧
    (pasteShellBatch exSrc4 [some exTgtA, some exTgt3, some exTgtB]).failed =
      [.uvCountMismatch 2 3 4] := by
  refine ⟨?_, ?_, ?_, ?_⟩
  · intro src targets; exact pasteShellLoop_total src true targets 1
  · intro src mt ts1 ts2 idx; exact pasteShellLoop_succ_append src mt ts1 ts2 idx
  · decide
  · decide

end UVTools

namespace UVTools

theorem transferLoop_spec (u : ℕ → ℚ × ℚ) (n : ℕ) (w : ℕ → ℚ × ℚ → Bool) :
    ∀ pairs : List (ℕ × ℕ), (∀ p ∈ pairs, p.2 < n) →
      (transferLoop u n w pairs).writes = pairs.map (fun p => (p.1, u p.2)) ∧
      (transferLoop u n w pairs).applyCount =
        pairs.countP (fun p => w p.1 (u p.2)) ∧
      (transferLoop u n w pairs).applyCount +
        (transferLoop u n w pairs).errorCount = pairs.length := by
  intro pairs
  induction pairs with
  | nil => intro _; exact ⟨rfl, rfl, rfl⟩
  | cons p rest ih =>
    intro h
    obtain ⟨tid, sid⟩ := p
    have hsid : sid < n := h (tid, sid) (List.mem_cons_self _ _)
    have hrest := ih fun q hq => h q (List.mem_cons_of_mem _ hq)
    by_cases hw : w tid (u sid)
    · simp only [transferLoop, if_pos hsid, if_pos hw, List.map_cons,
        List.countP_cons, List.length_cons]
      refine ⟨by rw [hrest.1], ?_, ?_⟩
      · simp [hw, hrest.2.1]
      · omega
    · simp only [transferLoop, if_pos hsid, if_neg hw, List.map_cons,
        List.countP_cons, List.length_cons]
      refine ⟨by rw [hrest.1], ?_, ?_⟩
      · simp [hw, hrest.2.1]
      · omega

theorem mem_sortedIds_lt (s : MeshSnap) {a : ℕ} (h : a ∈ s.sortedIds) :
    a < s.counts.uvCount := by
  have := mem_orderByAnchor.mp h
  exact List.mem_range.mp this

theorem meshTransfer_pairs_ok (src : MeshSnap) (tgtAnchor : ℕ → ℕ) (n : ℕ) :
    ∀ p ∈ (orderByAnchor tgtAnchor (List.range n)).zip src.sortedIds,
      p.2 < src.counts.uvCount := by
  intro p hp
  obtain ⟨p1, p2⟩ := p
  exact mem_sortedIds_lt src (List.of_mem_zip hp).2

/-- C5: coordinate transfer engine completeness and fault tolerance.
For every source snapshot and target ordering the mesh engine attempts
a coordinate write for all `min(len(source_order), len(target_order))`
positional pairs; every attempt is tallied as either applied or failed
(`apply_count + error_count` covers all attempts); and the attempted
write sequence does not depend on which writes the host rejects, so a
failing write never aborts the remaining points of the same target.
The shell engine likewise emits exactly the `min` number of writes. -/
theorem transfer_engine_complete :
    (∀ (src : MeshSnap) (tgtAnchor : ℕ → ℕ) (n : ℕ) (w : ℕ → ℚ × ℚ → Bool),
        (meshTransfer src tgtAnchor n w).writes.length =
          min (orderByAnchor tgtAnchor (List.range n)).length
            src.sortedIds.length ∧
        (meshTransfer src tgtAnchor n w).applyCount +
          (meshTransfer src tgtAnchor n w).errorCount =
          (meshTransfer src tgtAnchor n w).writes.length ∧
        (meshTransfer src tgtAnchor n w).writes =
          (meshTransfer src tgtAnchor n fun _ _ => true).writes) ∧
    (∀ src tgt : ShellData,
        (pasteShellWrites src tgt).length =
          min tgt.sortedIds.length src.sortedIds.length) := by
  constructor
  · intro src tgtAnchor n w
    have hok := meshTransfer_pairs_ok src tgtAnchor n
    have h1 := transferLoop_spec src.uvData src.counts.uvCount w _ hok
    have h2 := transferLoop_spec src.uvData src.counts.uvCount
      (fun _ _ => true) _ hok
    refine ⟨?_, ?_, ?_⟩
    · unfold meshTransfer
      rw [h1.1, List.length_map, List.length_zip]
    · unfold meshTransfer
      rw [h1.2.2, h1.1, List.length_map]
    · unfold meshTransfer
      rw [h1.1, h2.1]
  · intro src tgt
    exact pasteShellWrites_length src tgt

/-- C10: a UV id whose coordinate read raises during the whole-mesh
copy is recorded in the snapshot with coordinates (0, 0) -- it still
takes part in the canonical ordering -- and a subsequent paste (with
the host accepting writes) writes (0, 0) to the positionally paired
target point and counts that write among the successfully applied
ones. -/
theorem read_error_recorded (counts : MeshCounts)
    (read : ℕ → Except Unit (ℚ × ℚ)) (anchor tgtAnchor : ℕ → ℕ) (n i j : ℕ)
    (hj : read j = .error ())
    (hij : (buildMeshSnap counts read anchor).sortedIds.getD i 0 = j)
    (hi1 : i < n) (hi2 : i < counts.uvCount) :
    (buildMeshSnap counts read anchor).uvData j = (0, 0) ∧
    (meshTransfer (buildMeshSnap counts read anchor) tgtAnchor n
        (fun _ _ => true)).writes.getD i (0, (0, 0)) =
      ((orderByAnchor tgtAnchor (List.range n)).getD i 0, ((0 : ℚ), (0 : ℚ))) ∧
    (meshTransfer (buildMeshSnap counts read anchor) tgtAnchor n
        (fun _ _ => true)).applyCount =
      (meshTransfer (buildMeshSnap counts read anchor) tgtAnchor n
        (fun _ _ => true)).writes.length := by
  set snap := buildMeshSnap counts read anchor with hsnap
  have hzero : snap.uvData j = (0, 0) := by
    simp [hsnap, buildMeshSnap, hj]
  have hok := meshTransfer_pairs_ok snap tgtAnchor n
  have hspec := transferLoop_spec snap.uvData snap.counts.uvCount
    (fun _ _ => true) _ hok
  have hlen1 : i < (orderByAnchor tgtAnchor (List.range n)).length := by
    rw [orderByAnchor_length, List.length_range]; exact hi1
  have hlen2 : i < snap.sortedIds.length := by
    have : snap.counts.uvCount = counts.uvCount := rfl
    rw [MeshSnap.sortedIds, orderByAnchor_length, List.length_range, this]
    exact hi2
  refine ⟨hzero, ?_, ?_⟩
  · unfold meshTransfer
    rw [hspec.1,
      getD_map_of_lt _ (0, 0) _ _ i (by rw [List.length_zip]; omega),
      getD_zip_of_lt 0 0 _ _ i hlen1 hlen2]
    have : snap.sortedIds.getD i 0 = j := hij
    rw [this, hzero]
  · unfold meshTransfer
    rw [hspec.1, hspec.2.1, List.length_map]
    simp

end UVTools

namespace UVTools

/-- Witness for C10 on a two-point mesh whose read raises at UV id 1. -/
theorem read_error_recorded_witness :
    (buildMeshSnap ⟨1, 1, 2⟩ errRead (fun i => i)).uvData 1 = (0, 0) ∧
    (meshTransfer (buildMeshSnap ⟨1, 1, 2⟩ errRead (fun i => i)) (fun i => i) 2
        (fun _ _ => true)).writes.getD 1 (0, (0, 0)) =
      ((orderByAnchor (fun i => i) (List.range 2)).getD 1 0, ((0 : ℚ), (0 : ℚ))) := by
  have h := read_error_recorded ⟨1, 1, 2⟩ errRead (fun i => i) (fun i => i) 2 1 1
    rfl (by decide) (by decide) (by decide)
  exact ⟨h.1, h.2.1⟩

end UVTools

namespace UVTools

/-- Counterexample to C6: with two UV points anchored to the same
vertex (a tie) enumerated as [5, 3], the key-based stable sort keeps
the enumeration order [5, 3]; it does not place the smaller UV index
first, so the tie-break is not independent of the input enumeration
order. -/
theorem order_tie_break_cex :
    orderByAnchor tieAnchor [5, 3] = [5, 3] ∧
      orderByAnchor tieAnchor [5, 3] ≠ [3, 5] := by
  decide

theorem orderedInsert_pairwise_lexLt (anchor : ℕ → ℕ) (a : ℕ) :
    ∀ s : List ℕ, s.Pairwise (lexLt anchor) → (∀ b ∈ s, a < b) →
      (List.orderedInsert (anchorLe anchor) a s).Pairwise (lexLt anchor) := by
  intro s
  induction s with
  | nil =>
    intro _ _
    simp [List.orderedInsert]
  | cons y ys ih =>
    intro hp hb
    by_cases h : anchorLe anchor a y
    · rw [List.orderedInsert, if_pos h]
      refine List.Pairwise.cons ?_ hp
      intro z hz
      rcases List.mem_cons.mp hz with rfl | hz'
      · rcases lt_or_eq_of_le (h : anchor a ≤ anchor z) with hlt | heq
        · exact Or.inl hlt
        · exact Or.inr ⟨heq, hb z (List.mem_cons_self _ _)⟩
      · have hyz : lexLt anchor y z := (List.pairwise_cons.mp hp).1 z hz'
        have hyzle : anchor y ≤ anchor z := by
          rcases hyz with h1 | ⟨h1, _⟩
          · exact le_of_lt h1
          · exact le_of_eq h1
        rcases lt_or_eq_of_le (le_trans (h : anchor a ≤ anchor y) hyzle) with
          hlt | heq
        · exact Or.inl hlt
        · exact Or.inr ⟨heq, hb z (List.mem_cons_of_mem y hz')⟩
    · rw [List.orderedInsert, if_neg h]
      have hya : anchor y < anchor a := Nat.lt_of_not_le h
      refine List.Pairwise.cons ?_
        (ih (List.pairwise_cons.mp hp).2
          fun b hbb => hb b (List.mem_cons_of_mem y hbb))
      intro z hz
      rcases (List.mem_orderedInsert (anchorLe anchor)).mp hz with rfl | hz'
      · exact Or.inl hya
      · exact (List.pairwise_cons.mp hp).1 z hz'

/-- Amended C6: the key-based sort is stable, so ties between UV
points anchored to the same vertex keep the input enumeration order;
only when the input enumeration is itself ascending by UV index (as in
whole-mesh mode, whose input is `range(uv_count)`) do ties come out
ordered by the UV index's own value, i.e. the output is sorted by the
lexicographic order (vertex id, then UV id). -/
theorem order_tie_break_amended (anchor : ℕ → ℕ) (l : List ℕ)
    (hl : l.Pairwise (· < ·)) :
    (orderByAnchor anchor l).Pairwise (lexLt anchor) := by
  unfold orderByAnchor
  induction hl with
  | nil => simp [List.insertionSort]
  | cons hx _ ih =>
    rw [List.insertionSort]
    refine orderedInsert_pairwise_lexLt anchor _ _ ih ?_
    intro b hb
    exact hx b ((List.perm_insertionSort _ _).mem_iff.mp hb)

/-- Witness for the amended C6 on the ascending enumeration [3, 5]
with all points tied on one vertex. -/
theorem order_tie_break_amended_witness :
    (orderByAnchor tieAnchor [3, 5]).Pairwise (lexLt tieAnchor) :=
  order_tie_break_amended tieAnchor [3, 5] (by decide)

end UVTools

namespace UVTools

/-- Counterexample to C7: UV point 1 belongs to both the source point
set and the target shell, yet the call is NOT rejected -- the guard
only inspects the shell of the FIRST source point (0, a singleton
shell disjoint from the target shell), so source point 0 is written. -/
theorem snap_shared_point_cex :
    (1 ∈ ([0, 1] : List ℕ).filter fun uv => uv ≠ 10) ∧
    1 ∈ cexSnapEnv.shell 10 ∧
    (snapRun cexSnapEnv [0, 1] 10 1).rejected = false ∧
    (snapRun cexSnapEnv [0, 1] 10 1).writes = [(0, (0, 0))] := by
  refine ⟨by decide, by decide, ?_, ?_⟩ <;>
    norm_num [snapRun, cexSnapEnv, snapPoint, nearestPoint, nearestAux,
      distSq, snapWithin, List.cons_ne_nil, List.filterMap_cons,
      List.filterMap_nil]

/-- Amended C7: the disjointness guard of the snap tool works at shell
granularity and only on the first source point: if the shell of the
first source point shares any UV with the target shell, the whole call
is rejected before any write; independently, a source point that
itself lies in the target shell is never written (it is skipped
per-point), but when the first source point's shell is disjoint from
the target shell the call proceeds and the other source points are
still written. -/
theorem snapRun_eq_of_pass (env : SnapEnv) (sel : List ℕ) (tgt first : ℕ)
    (rest : List ℕ) (th : ℚ)
    (hs : sel.filter (fun uv => uv ≠ tgt) = first :: rest)
    (h1 : env.shell tgt ≠ [])
    (h2 : ¬ ((env.shell tgt).any fun x => decide (x ∈ env.shell first)) = true) :
    snapRun env sel tgt th =
      ⟨false, (first :: rest).filterMap
        (snapPoint (env.shell tgt) ((env.shell tgt).map env.coords)
          env.coords th)⟩ := by
  simp only [snapRun]
  rw [hs]
  simp [h1, h2]

theorem snapPoint_some_imp {tuvs : List ℕ} {tpts : List (ℚ × ℚ)}
    {coords : ℕ → ℚ × ℚ} {th : ℚ} {a : ℕ} {b : ℕ × ℚ × ℚ}
    (h : snapPoint tuvs tpts coords th a = some b) :
    a ∉ tuvs ∧ ∃ np d2, nearestPoint tpts (coords a) = some (np, d2) ∧
      snapWithin th d2 = true ∧ b = (a, np) := by
  by_cases hat : a ∈ tuvs
  · simp [snapPoint, hat] at h
  · refine ⟨hat, ?_⟩
    rcases hnp : nearestPoint tpts (coords a) with _ | ⟨np, d2⟩
    · simp [snapPoint, hat, hnp] at h
    · refine ⟨np, d2, rfl, ?_⟩
      by_cases hsw : snapWithin th d2 = true
      · simp [snapPoint, hat, hnp, hsw] at h
        exact ⟨hsw, h.symm⟩
      · simp [snapPoint, hat, hnp, hsw] at h

theorem snap_guard_amended :
    (∀ (env : SnapEnv) (sel : List ℕ) (tgt : ℕ) (th : ℚ) (first : ℕ)
        (rest : List ℕ),
        sel.filter (fun uv => uv ≠ tgt) = first :: rest →
        (∃ u ∈ env.shell tgt, u ∈ env.shell first) →
        snapRun env sel tgt th = ⟨true, []⟩) ∧
    (∀ (env : SnapEnv) (sel : List ℕ) (tgt : ℕ) (th : ℚ) (uv : ℕ)
        (p : ℚ × ℚ),
        uv ∈ env.shell tgt → (uv, p) ∉ (snapRun env sel tgt th).writes) := by
  constructor
  · rintro env sel tgt th first rest hfil ⟨u, hu1, hu2⟩
    have hne : env.shell tgt ≠ [] := by
      intro h; rw [h] at hu1; exact absurd hu1 (List.not_mem_nil u)
    have hany : ((env.shell tgt).any fun x => decide (x ∈ env.shell first))
        = true := by
      rw [List.any_eq_true]
      exact ⟨u, hu1, by simpa using hu2⟩
    simp only [snapRun]
    rw [hfil]
    simp [hne, hany]
  · intro env sel tgt th uv p huv hmem
    rcases hs : sel.filter (fun x => x ≠ tgt) with _ | ⟨first, rest⟩
    · simp only [snapRun] at hmem
      rw [hs] at hmem
      simp at hmem
    · by_cases h1 : env.shell tgt = []
      · rw [h1] at huv; exact absurd huv (List.not_mem_nil uv)
      · by_cases h2 : ((env.shell tgt).any fun x => decide (x ∈ env.shell first)) = true
        · simp only [snapRun] at hmem
          rw [hs] at hmem
          simp [h1, h2] at hmem
        · rw [snapRun_eq_of_pass env sel tgt first rest th hs h1 h2] at hmem
          rw [show (⟨false, (first :: rest).filterMap
              (snapPoint (env.shell tgt) ((env.shell tgt).map env.coords)
                env.coords th)⟩ : SnapResult).writes =
              (first :: rest).filterMap
                (snapPoint (env.shell tgt) ((env.shell tgt).map env.coords)
                  env.coords th) from rfl,
            List.mem_filterMap] at hmem
          obtain ⟨a, _, hfa⟩ := hmem
          obtain ⟨hat, np2, dd, -, -, hb⟩ := snapPoint_some_imp hfa
          have hau : a = uv := congrArg Prod.fst hb.symm
          exact hat (hau ▸ huv)

/-- Witness for the amended C7: with every shell equal to the single
point 7, the first source point's shell meets the target shell and the
call is rejected with no writes. -/
theorem snap_guard_amended_witness :
    snapRun rejSnapEnv [0, 1] 10 1 = ⟨true, []⟩ :=
  snap_guard_amended.1 rejSnapEnv [0, 1] 10 1 0 [1] (by decide)
    ⟨7, by decide, by decide⟩

end UVTools

namespace UVTools

theorem nearestAux_spec (c : ℚ × ℚ) :
    ∀ (l : List (ℚ × ℚ)) (bp : ℚ × ℚ) (m : ℚ), m = distSq c bp →
      ∀ (bp' : ℚ × ℚ) (m' : ℚ),
        nearestAux c (some (bp, m)) l = some (bp', m') →
        (bp' = bp ∨ bp' ∈ l) ∧ m' = distSq c bp' ∧ m' ≤ m ∧
          ∀ q ∈ l, m' ≤ distSq c q := by
  intro l
  induction l with
  | nil =>
    intro bp m hm bp' m' h
    simp only [nearestAux, Option.some.injEq, Prod.mk.injEq] at h
    obtain ⟨hb, hmm⟩ := h
    subst hb; subst hmm
    exact ⟨Or.inl rfl, hm, le_refl _, fun q hq => absurd hq (List.not_mem_nil q)⟩
  | cons t rest ih =>
    intro bp m hm bp' m' h
    simp only [nearestAux] at h
    by_cases hd : distSq c t < m
    · rw [if_pos hd] at h
      obtain ⟨hbp, hm', hle, hall⟩ := ih t (distSq c t) rfl bp' m' h
      refine ⟨?_, hm', le_trans hle (le_of_lt hd), ?_⟩
      · rcases hbp with rfl | hin
        · exact Or.inr (List.mem_cons_self _ _)
        · exact Or.inr (List.mem_cons_of_mem _ hin)
      · intro q hq
        rcases List.mem_cons.mp hq with rfl | hq'
        · exact hle
        · exact hall q hq'
    · rw [if_neg hd] at h
      obtain ⟨hbp, hm', hle, hall⟩ := ih bp m hm bp' m' h
      refine ⟨?_, hm', hle, ?_⟩
      · rcases hbp with rfl | hin
        · exact Or.inl rfl
        · exact Or.inr (List.mem_cons_of_mem _ hin)
      · intro q hq
        rcases List.mem_cons.mp hq with rfl | hq'
        · exact le_trans hle (not_lt.mp hd)
        · exact hall q hq'

theorem nearestPoint_spec (l : List (ℚ × ℚ)) (c bp' : ℚ × ℚ) (m' : ℚ)
    (h : nearestPoint l c = some (bp', m')) :
    bp' ∈ l ∧ m' = distSq c bp' ∧ ∀ q ∈ l, m' ≤ distSq c q := by
  cases l with
  | nil => simp [nearestPoint, nearestAux] at h
  | cons t rest =>
    have h' : nearestAux c (some (t, distSq c t)) rest = some (bp', m') := by
      simpa [nearestPoint, nearestAux] using h
    obtain ⟨hbp, hm', hle, hall⟩ :=
      nearestAux_spec c rest t (distSq c t) rfl bp' m' h'
    refine ⟨?_, hm', ?_⟩
    · rcases hbp with rfl | hin
      · exact List.mem_cons_self _ _
      · exact List.mem_cons_of_mem _ hin
    · intro q hq
      rcases List.mem_cons.mp hq with rfl | hq'
      · exact hle
      · exact hall q hq'

theorem snapWithin_iff (th d2 : ℚ) :
    snapWithin th d2 = true ↔ 0 ≤ th ∧ d2 ≤ th * th := by
  simp [snapWithin]

/-- C8: snap threshold condition.  In a non-rejected snap invocation, a
source point outside the target shell is overwritten with the
coordinate of its minimum-distance target point if and only if that
minimum (squared) distance is within the threshold; above the threshold
no write for that point appears.  The nearest point really is minimal:
it belongs to the target point list and its distance is a lower bound
over all target points. -/
theorem snap_threshold_condition (env : SnapEnv) (sel : List ℕ) (tgt : ℕ)
    (th : ℚ) (uv : ℕ) (np : ℚ × ℚ) (d2 : ℚ)
    (h1 : (snapRun env sel tgt th).rejected = false)
    (h2 : uv ∈ sel.filter fun x => x ≠ tgt)
    (h3 : uv ∉ env.shell tgt)
    (hnp : nearestPoint ((env.shell tgt).map env.coords) (env.coords uv) =
      some (np, d2)) :
    (∀ p : ℚ × ℚ, (uv, p) ∈ (snapRun env sel tgt th).writes ↔
      p = np ∧ 0 ≤ th ∧ d2 ≤ th * th) ∧
    np ∈ (env.shell tgt).map env.coords ∧
    d2 = distSq (env.coords uv) np ∧
    ∀ q ∈ (env.shell tgt).map env.coords, d2 ≤ distSq (env.coords uv) q := by
  obtain ⟨hmem, hdist, hmin⟩ := nearestPoint_spec _ _ _ _ hnp
  refine ⟨?_, hmem, hdist, hmin⟩
  intro p
  rcases hs : sel.filter (fun x => x ≠ tgt) with _ | ⟨first, rest⟩
  · rw [hs] at h2; exact absurd h2 (List.not_mem_nil uv)
  · have hne : env.shell tgt ≠ [] := by
      intro h
      rw [h] at hnp
      simp [nearestPoint, nearestAux] at hnp
    by_cases hany : ((env.shell tgt).any fun x => decide (x ∈ env.shell first)) = true
    · exfalso
      have hrej : (snapRun env sel tgt th).rejected = true := by
        simp only [snapRun]
        rw [hs]
        simp [hne, hany]
      rw [hrej] at h1
      exact absurd h1 (by decide)
    · rw [snapRun_eq_of_pass env sel tgt first rest th hs hne hany]
      rw [show (⟨false, (first :: rest).filterMap
          (snapPoint (env.shell tgt) ((env.shell tgt).map env.coords)
            env.coords th)⟩ : SnapResult).writes =
          (first :: rest).filterMap
            (snapPoint (env.shell tgt) ((env.shell tgt).map env.coords)
              env.coords th) from rfl,
        List.mem_filterMap]
      constructor
      · rintro ⟨a, -, hfa⟩
        obtain ⟨-, np2, dd, hnp2, hsw, hb⟩ := snapPoint_some_imp hfa
        have hau : a = uv := congrArg Prod.fst hb.symm
        subst hau
        rw [hnp] at hnp2
        simp only [Option.some.injEq, Prod.mk.injEq] at hnp2
        obtain ⟨hnpe, hdd⟩ := hnp2
        have hpe : p = np := by
          have := congrArg Prod.snd hb
          simp at this
          rw [this, hnpe]
        refine ⟨hpe, ?_⟩
        rw [← hdd] at hsw
        exact (snapWithin_iff th d2).mp hsw
      · rintro ⟨hp, hth1, hth2⟩
        refine ⟨uv, ?_, ?_⟩
        · rw [hs] at h2; exact h2
        · have hsw : snapWithin th d2 = true :=
            (snapWithin_iff th d2).mpr ⟨hth1, hth2⟩
          simp [snapPoint, h3, hnp, hsw, hp]

end UVTools

namespace UVTools

/-- Witness for C8 on the spec's example: a source at (0, 0) with
targets at (0.005, 0) and (0.5, 0.5) snaps to (0.005, 0) under
threshold 0.01 and is left unwritten under threshold 0.001. -/
theorem snap_threshold_condition_witness :
    ((0, ((1 : ℚ) / 200, (0 : ℚ))) ∈ (snapRun exSnapEnv [0, 1] 1 (1 / 100)).writes) ∧
    ((0, ((1 : ℚ) / 200, (0 : ℚ))) ∉ (snapRun exSnapEnv [0, 1] 1 (1 / 1000)).writes) := by
  have hnp : nearestPoint ((exSnapEnv.shell 1).map exSnapEnv.coords)
      (exSnapEnv.coords 0) = some ((1 / 200, 0), 1 / 40000) := by
    norm_num [exSnapEnv, nearestPoint, nearestAux, distSq]
  have h2 : (0 : ℕ) ∈ [0, 1].filter fun x => x ≠ 1 := by decide
  have h3 : (0 : ℕ) ∉ exSnapEnv.shell 1 := by decide
  have hrej1 : (snapRun exSnapEnv [0, 1] 1 (1 / 100)).rejected = false := by
    norm_num [snapRun, exSnapEnv, snapPoint, nearestPoint, nearestAux,
      distSq, snapWithin, List.cons_ne_nil, List.filterMap_cons,
      List.filterMap_nil]
  have hrej2 : (snapRun exSnapEnv [0, 1] 1 (1 / 1000)).rejected = false := by
    norm_num [snapRun, exSnapEnv, snapPoint, nearestPoint, nearestAux,
      distSq, snapWithin, List.cons_ne_nil, List.filterMap_cons,
      List.filterMap_nil]
  constructor
  · exact ((snap_threshold_condition exSnapEnv [0, 1] 1 (1 / 100) 0
      (1 / 200, 0) (1 / 40000) hrej1 h2 h3 hnp).1 (1 / 200, 0)).mpr
      ⟨rfl, by norm_num, by norm_num⟩
  · intro hmemw
    have h := ((snap_threshold_condition exSnapEnv [0, 1] 1 (1 / 1000) 0
      (1 / 200, 0) (1 / 40000) hrej2 h2 h3 hnp).1 (1 / 200, 0)).mp hmemw
    have hcontra := h.2.2
    norm_num at hcontra

end UVTools

namespace UVTools

theorem shellClosed_nil (shell : ℕ → List ℕ) : ShellClosed shell [] :=
  fun z hz => absurd hz (List.not_mem_nil z)

theorem shellClosed_append (shell : ℕ → List ℕ)
    (hcl : ∀ x y, y ∈ shell x → shell y = shell x)
    {p : List ℕ} {x first : ℕ} {tail : List ℕ}
    (hp : ShellClosed shell p) (hsx : shell x = first :: tail) :
    ShellClosed shell (p ++ first :: tail) := by
  intro z hz w hw
  rcases List.mem_append.mp hz with hz' | hz'
  · exact List.mem_append.mpr (Or.inl (hp z hz' w hw))
  · have hz2 : z ∈ shell x := by rw [hsx]; exact hz'
    have hze : shell z = shell x := hcl x z hz2
    have hw2 : w ∈ shell x := by rw [← hze]; exact hw
    exact List.mem_append.mpr (Or.inr (hsx ▸ hw2))

theorem extractLoop_cover (shell : ℕ → List ℕ)
    (hrefl : ∀ x, x ∈ shell x)
    (hcl : ∀ x y, y ∈ shell x → shell y = shell x) :
    ∀ (l p : List ℕ) (u : ℕ), u ∈ l → u ∉ p →
      ∃ r ∈ extractLoop shell l p, shell r = shell u := by
  intro l
  induction l with
  | nil => intro p u hu _; exact absurd hu (List.not_mem_nil u)
  | cons x rest ih =>
    intro p u hu hup
    by_cases hxp : x ∈ p
    · simp only [extractLoop, if_pos hxp]
      rcases List.mem_cons.mp hu with rfl | hu'
      · exact absurd hxp hup
      · exact ih p u hu' hup
    · rcases hsx : shell x with _ | ⟨first, tail⟩
      · exact absurd (hrefl x) (by rw [hsx]; exact List.not_mem_nil x)
      · simp only [extractLoop, if_neg hxp, hsx]
        rcases List.mem_cons.mp hu with rfl | hu'
        · refine ⟨first, List.mem_cons_self _ _, ?_⟩
          have hf : first ∈ shell u := by rw [hsx]; exact List.mem_cons_self _ _
          exact hcl u first hf
        · by_cases hup2 : u ∈ p ++ first :: tail
          · have humem : u ∈ shell x := by
              rcases List.mem_append.mp hup2 with h | h
              · exact absurd h hup
              · rw [hsx]; exact h
            refine ⟨first, List.mem_cons_self _ _, ?_⟩
            have hf : first ∈ shell x := by rw [hsx]; exact List.mem_cons_self _ _
            rw [hcl x first hf, hcl x u humem]
          · obtain ⟨r, hr, hsr⟩ := ih (p ++ first :: tail) u hu' hup2
            exact ⟨r, List.mem_cons_of_mem _ hr, hsr⟩

theorem extractLoop_fresh (shell : ℕ → List ℕ)
    (hrefl : ∀ x, x ∈ shell x)
    (hcl : ∀ x y, y ∈ shell x → shell y = shell x) :
    ∀ (l p : List ℕ), ShellClosed shell p →
      ∀ r ∈ extractLoop shell l p, ∀ y ∈ shell r, y ∉ p := by
  intro l
  induction l with
  | nil => intro p _ r hr; simp [extractLoop] at hr
  | cons x rest ih =>
    intro p hp r hr y hy
    by_cases hxp : x ∈ p
    · simp only [extractLoop, if_pos hxp] at hr
      exact ih p hp r hr y hy
    · rcases hsx : shell x with _ | ⟨first, tail⟩
      · exact absurd (hrefl x) (by rw [hsx]; exact List.not_mem_nil x)
      · simp only [extractLoop, if_neg hxp, hsx] at hr
        have hp' : ShellClosed shell (p ++ first :: tail) :=
          shellClosed_append shell hcl hp hsx
        rcases List.mem_cons.mp hr with rfl | hr'
        · intro hyp
          have hf : r ∈ shell x := by rw [hsx]; exact List.mem_cons_self _ _
          have hy2 : y ∈ shell x := by rw [← hcl x r hf]; exact hy
          have hx2 : x ∈ shell y := by rw [hcl x y hy2]; exact hrefl x
          exact hxp (hp y hyp x hx2)
        · intro hyp
          exact ih (p ++ first :: tail) hp' r hr' y hy
            (List.mem_append.mpr (Or.inl hyp))

theorem extractLoop_pairwise (shell : ℕ → List ℕ)
    (hrefl : ∀ x, x ∈ shell x)
    (hcl : ∀ x y, y ∈ shell x → shell y = shell x) :
    ∀ (l p : List ℕ), ShellClosed shell p →
      ((extractLoop shell l p).map shell).Pairwise fun A B => A ≠ B := by
  intro l
  induction l with
  | nil => intro p _; simp [extractLoop]
  | cons x rest ih =>
    intro p hp
    by_cases hxp : x ∈ p
    · simp only [extractLoop, if_pos hxp]; exact ih p hp
    · rcases hsx : shell x with _ | ⟨first, tail⟩
      · exact absurd (hrefl x) (by rw [hsx]; exact List.not_mem_nil x)
      · simp only [extractLoop, if_neg hxp, hsx, List.map_cons]
        have hp' : ShellClosed shell (p ++ first :: tail) :=
          shellClosed_append shell hcl hp hsx
        refine List.Pairwise.cons ?_ (ih (p ++ first :: tail) hp')
        intro B hB
        rw [List.mem_map] at hB
        obtain ⟨r, hr, rfl⟩ := hB
        intro heq
        have hf : first ∈ shell x := by rw [hsx]; exact List.mem_cons_self _ _
        have hx2 : x ∈ shell r := by
          rw [← heq, hcl x first hf]; exact hrefl x
        exact extractLoop_fresh shell hrefl hcl rest (p ++ first :: tail) hp'
          r hr x hx2
          (List.mem_append.mpr (Or.inr (by rw [← hsx]; exact hrefl x)))

theorem extractLoop_from (shell : ℕ → List ℕ)
    (hcl : ∀ x y, y ∈ shell x → shell y = shell x) :
    ∀ (l p : List ℕ), ∀ r ∈ extractLoop shell l p, ∃ u ∈ l, shell r = shell u := by
  intro l
  induction l with
  | nil => intro p r hr; simp [extractLoop] at hr
  | cons x rest ih =>
    intro p r hr
    by_cases hxp : x ∈ p
    · simp only [extractLoop, if_pos hxp] at hr
      obtain ⟨u, hu, he⟩ := ih p r hr
      exact ⟨u, List.mem_cons_of_mem _ hu, he⟩
    · rcases hsx : shell x with _ | ⟨first, tail⟩
      · simp only [extractLoop, if_neg hxp, hsx] at hr
        obtain ⟨u, hu, he⟩ := ih p r hr
        exact ⟨u, List.mem_cons_of_mem _ hu, he⟩
      · simp only [extractLoop, if_neg hxp, hsx] at hr
        rcases List.mem_cons.mp hr with rfl | hr'
        · refine ⟨x, List.mem_cons_self _ _, ?_⟩
          have hf : r ∈ shell x := by rw [hsx]; exact List.mem_cons_self _ _
          exact hcl x r hf
        · obtain ⟨u, hu, he⟩ := ih (p ++ first :: tail) r hr'
          exact ⟨u, List.mem_cons_of_mem _ hu, he⟩

theorem extractLoop_map_shell (shell : ℕ → List ℕ)
    (hrefl : ∀ x, x ∈ shell x)
    (hcl : ∀ x y, y ∈ shell x → shell y = shell x) :
    ∀ (l p : List ℕ) (seen : List (List ℕ)),
      (∀ v, v ∈ p ↔ shell v ∈ seen) →
      (extractLoop shell l p).map shell = firstEncounterShells shell l seen := by
  intro l
  induction l with
  | nil => intro p seen _; rfl
  | cons x rest ih =>
    intro p seen hinv
    by_cases hxp : x ∈ p
    · have hxs : shell x ∈ seen := (hinv x).mp hxp
      simp only [extractLoop, if_pos hxp, firstEncounterShells, if_pos hxs]
      exact ih p seen hinv
    · have hxs : shell x ∉ seen := fun h => hxp ((hinv x).mpr h)
      obtain ⟨first, tail, hsx⟩ : ∃ f t, shell x = f :: t := by
        rcases h : shell x with _ | ⟨f, t⟩
        · exact absurd (hrefl x) (by rw [h]; exact List.not_mem_nil x)
        · exact ⟨f, t, rfl⟩
      have hf : first ∈ shell x := by rw [hsx]; exact List.mem_cons_self _ _
      have hinv' : ∀ v, v ∈ p ++ first :: tail ↔ shell v ∈ shell x :: seen := by
        intro v
        constructor
        · intro hv
          rcases List.mem_append.mp hv with hv' | hv'
          · exact List.mem_cons_of_mem _ ((hinv v).mp hv')
          · have hvx : v ∈ shell x := by rw [hsx]; exact hv'
            rw [hcl x v hvx]
            exact List.mem_cons_self _ _
        · intro hv
          rcases List.mem_cons.mp hv with hv' | hv'
          · have hvx : v ∈ shell x := by rw [← hv']; exact hrefl v
            rw [hsx] at hvx
            exact List.mem_append.mpr (Or.inr hvx)
          · exact List.mem_append.mpr (Or.inl ((hinv v).mpr hv'))
      simp only [extractLoop, if_neg hxp, hsx, List.map_cons]
      simp only [firstEncounterShells, if_neg hxs]
      rw [ih (p ++ first :: tail) (shell x :: seen) hinv', hcl x first hf]

/-- C9: shell extraction.  An empty selection, or a selection with no
UV-typed component, yields no shells (the `None` return the caller
turns into the "nothing selected" warning).  Otherwise the extraction
returns one representative per connected region touched by the
selection: the represented regions are pairwise distinct (never a
duplicate), every selected UV point's region is represented (never a
merged or dropped region), every representative's region is the region
of some selected point, and the sequence of represented regions equals
the first-encounter sequence of regions of the input selection, so the
shells appear in first-encounter order. -/
theorem shell_extraction_correct (shell : ℕ → List ℕ) (isUV : ℕ → Bool)
    (selected : List ℕ)
    (hrefl : ∀ x, x ∈ shell x)
    (hcl : ∀ x y, y ∈ shell x → shell y = shell x) :
    getSelectedUvShells shell isUV [] = none ∧
    (selected.filter isUV = [] → getSelectedUvShells shell isUV selected = none) ∧
    ∀ u0 rest0, selected.filter isUV = u0 :: rest0 →
      ∃ reps, getSelectedUvShells shell isUV selected = some reps ∧
        ((reps.map shell).Pairwise fun A B => A ≠ B) ∧
        (∀ u ∈ selected.filter isUV, ∃ r ∈ reps, shell r = shell u) ∧
        (∀ r ∈ reps, ∃ u ∈ selected.filter isUV, shell r = shell u) ∧
        reps.map shell = firstEncounterShells shell (selected.filter isUV) [] := by
  refine ⟨rfl, ?_, ?_⟩
  · intro hfil
    unfold getSelectedUvShells
    by_cases hsel : selected.isEmpty
    · simp [hsel]
    · simp [hsel, hfil]
  · intro u0 rest0 hfil
    have hsel : ¬ selected.isEmpty = true := by
      intro h
      rw [List.isEmpty_iff] at h
      rw [h] at hfil
      exact absurd hfil.symm (List.cons_ne_nil u0 rest0)
    have hne : extractLoop shell (u0 :: rest0) [] ≠ [] := by
      rcases hsu : shell u0 with _ | ⟨first, tail⟩
      · exact absurd (hrefl u0) (by rw [hsu]; exact List.not_mem_nil u0)
      · simp [extractLoop, hsu]
    have hres : getSelectedUvShells shell isUV selected =
        some (extractLoop shell (u0 :: rest0) []) := by
      unfold getSelectedUvShells
      rw [if_neg hsel]
      simp only [hfil]
      rw [if_neg (by simp), if_neg (by simpa [List.isEmpty_iff] using hne)]
    refine ⟨extractLoop shell (u0 :: rest0) [], hres, ?_, ?_, ?_, ?_⟩
    · exact extractLoop_pairwise shell hrefl hcl (u0 :: rest0) []
        (shellClosed_nil shell)
    · intro u hu
      rw [hfil] at hu
      exact extractLoop_cover shell hrefl hcl (u0 :: rest0) [] u hu
        (List.not_mem_nil u)
    · intro r hr
      obtain ⟨u, hu, he⟩ := extractLoop_from shell hcl (u0 :: rest0) [] r hr
      exact ⟨u, by rw [hfil]; exact hu, he⟩
    · rw [hfil]
      exact extractLoop_map_shell shell hrefl hcl (u0 :: rest0) [] []
        (fun v => by simp)

theorem exShellFn_refl : ∀ x, x ∈ exShellFn x := by
  intro x
  by_cases h : x = 0 ∨ x = 2
  · rcases h with rfl | rfl <;> simp [exShellFn]
  · simp [exShellFn, h]

theorem exShellFn_class : ∀ x y, y ∈ exShellFn x → exShellFn y = exShellFn x := by
  intro x y hy
  by_cases h : x = 0 ∨ x = 2
  · simp only [exShellFn, if_pos h] at hy ⊢
    rcases List.mem_cons.mp hy with rfl | hy'
    · simp [exShellFn]
    · simp only [List.mem_cons, List.not_mem_nil, or_false] at hy'
      subst hy'
      simp [exShellFn]
  · simp only [exShellFn, if_neg h] at hy ⊢
    simp only [List.mem_cons, List.not_mem_nil, or_false] at hy
    subst hy
    rw [if_neg h]

/-- Witness for C9 on the concrete selection [0, 1, 2] over a shell
function with the two-point region {0, 2} and singleton regions
elsewhere: the nonempty branch is exercised, and the output regions
follow first-encounter order. -/
theorem shell_extraction_correct_witness :
    ∃ reps, getSelectedUvShells exShellFn (fun _ => true) [0, 1, 2] = some reps ∧
      ((reps.map exShellFn).Pairwise fun A B => A ≠ B) ∧
      (∀ u ∈ ([0, 1, 2] : List ℕ).filter (fun _ => true),
        ∃ r ∈ reps, exShellFn r = exShellFn u) ∧
      (∀ r ∈ reps, ∃ u ∈ ([0, 1, 2] : List ℕ).filter (fun _ => true),
        exShellFn r = exShellFn u) ∧
      reps.map exShellFn =
        firstEncounterShells exShellFn (([0, 1, 2] : List ℕ).filter (fun _ => true)) [] :=
  (shell_extraction_correct exShellFn (fun _ => true) [0, 1, 2]
    exShellFn_refl exShellFn_class).2.2 0 [1, 2] (by decide)

end UVTools
